import Mathlib

/-!
Verification of the skill content-store, routing and metadata components of the
Yuxi-Know repository (`src/services/skill_service.py`,
`src/agents/common/backends/composite.py`).

Embedding conventions:
* Python strings are embedded as `List Char`; string literals enter through
  `String.data`.
* Filesystem paths are lists of path components (`List (List Char)`).
* `Path.resolve()` (symlink resolution plus normalisation performed by the
  operating system) is an arbitrary function parameter `resolveFn`, so every
  theorem quantifying over it covers all symlink configurations.
* Fallible Python code (functions that `raise`) returns `Except SkillError`.
* Stateful operations return, alongside their result, an explicit trace of the
  filesystem operations they performed.
-/

/-- Decidable equality for `Except`, needed to evaluate embedded fallible code
on concrete inputs. -/
instance {ε α : Type} [DecidableEq ε] [DecidableEq α] : DecidableEq (Except ε α) := fun a b =>
  match a, b with
  | .ok x, .ok y => if h : x = y then .isTrue (by rw [h]) else .isFalse (by simp [h])
  | .error x, .error y => if h : x = y then .isTrue (by rw [h]) else .isFalse (by simp [h])
  | .ok _, .error _ => .isFalse (by simp)
  | .error _, .ok _ => .isFalse (by simp)

/-- Split a character list on a separator character, the semantics of Python's
`str.split(sep)` for a one-character separator (also the component splitter of
`PurePosixPath`). -/
def chSplit (sep : Char) : List Char → List (List Char)
  | [] => [[]]
  | c :: rest =>
    let r := chSplit sep rest
    if c = sep then [] :: r
    else
      match r with
      | [] => [[c]]
      | g :: gs => (c :: g) :: gs

/-- Python `str.strip()`: drop whitespace from both ends. -/
def pyStrip (l : List Char) : List Char :=
  ((l.dropWhile Char.isWhitespace).reverse.dropWhile Char.isWhitespace).reverse

/-- Python `str.replace("\\", "/")`: pointwise character replacement (the
pattern is a single character). -/
def replaceBackslash (l : List Char) : List Char :=
  l.map (fun c => if c = '\\' then '/' else c)

/-- Python `str.lstrip("/")`. -/
def lstripSlash (l : List Char) : List Char :=
  l.dropWhile (fun c => c = '/')

/-- ASCII lower-casing of one character (the behaviour of Python `str.lower()`
on the ASCII file names and extensions handled by the service). -/
def lowerChar (c : Char) : Char :=
  if 'A' ≤ c ∧ c ≤ 'Z' then Char.ofNat (c.toNat + 32) else c

/-- Python `str.lower()` on ASCII text. -/
def pyLower (l : List Char) : List Char :=
  l.map lowerChar

/-- First-seen-order deduplication, the spec-side description of the
`seen`-set loops of the service. -/
def dedupFirst (seen : List (List Char)) : List (List Char) → List (List Char)
  | [] => []
  | s :: rest =>
    if seen.contains s then dedupFirst seen rest
    else s :: dedupFirst (s :: seen) rest

/-- Numeric value of a decimal digit character, inverse of `Nat.digitChar` on
digits below 10. -/
def digitVal (c : Char) : Nat :=
  if c = '0' then 0 else
  if c = '1' then 1 else
  if c = '2' then 2 else
  if c = '3' then 3 else
  if c = '4' then 4 else
  if c = '5' then 5 else
  if c = '6' then 6 else
  if c = '7' then 7 else
  if c = '8' then 8 else
  if c = '9' then 9 else 0

/-- Decimal evaluation of a character list, used to invert `Nat.repr`. -/
def digitsVal (l : List Char) : Nat :=
  l.foldl (fun a c => a * 10 + digitVal c) 0

theorem digitVal_digitChar (d : Nat) (h : d < 10) : digitVal (Nat.digitChar d) = d := by
  interval_cases d <;> rfl

theorem foldl_digits_core (fuel : Nat) :
    ∀ (n : Nat) (acc : List Char), n < fuel →
      List.foldl (fun a c => a * 10 + digitVal c) 0 (Nat.toDigitsCore 10 fuel n acc)
        = List.foldl (fun a c => a * 10 + digitVal c) n acc := by
  induction fuel with
  | zero => intro n acc h; omega
  | succ fuel ih =>
    intro n acc h
    show List.foldl _ 0 (Nat.toDigitsCore 10 (fuel + 1) n acc) = _
    rw [Nat.toDigitsCore]
    by_cases hdiv : n / 10 = 0
    · simp only [hdiv, if_pos rfl]
      have hlt : n % 10 < 10 := Nat.mod_lt _ (by omega)
      have hn : n % 10 = n := by omega
      simp only [List.foldl, Nat.zero_mul, Nat.zero_add]
      rw [digitVal_digitChar (n % 10) hlt, hn]
    · simp only [if_neg hdiv]
      have hfuel : n / 10 < fuel := by omega
      rw [ih (n / 10) (Nat.digitChar (n % 10) :: acc) hfuel]
      have hlt : n % 10 < 10 := Nat.mod_lt _ (by omega)
      simp only [List.foldl, digitVal_digitChar (n % 10) hlt]
      congr 1
      omega

theorem digitsVal_repr (n : Nat) : digitsVal (Nat.repr n).data = n := by
  have hdata : (Nat.repr n).data = Nat.toDigitsCore 10 (n + 1) n [] := rfl
  rw [hdata]
  show List.foldl _ 0 _ = n
  rw [foldl_digits_core (n + 1) n [] (Nat.lt_succ_self n)]
  rfl

theorem repr_data_injective {m n : Nat} (h : (Nat.repr m).data = (Nat.repr n).data) : m = n := by
  have := congrArg digitsVal h
  rwa [digitsVal_repr, digitsVal_repr] at this

/-! ### Error taxonomy

One constructor per distinct `ValueError` raised by `skill_service.py`; the
spec's `PathViolation` corresponds to `parentTraversal` and `outsideRoot`. -/

inductive SkillError where
  /-- "path 不能为空" -/
  | emptyPath
  /-- "非法路径：不允许上级路径引用" -/
  | parentTraversal
  /-- "非法路径：越界访问被拒绝" -/
  | outsideRoot
  /-- "ZIP 包含不安全绝对路径: {name}" -/
  | zipAbsolutePath (name : List Char)
  /-- "ZIP 包含路径穿越片段: {name}" -/
  | zipTraversal (name : List Char)
  /-- "仅支持上传 .zip 文件" -/
  | notZipFilename
  /-- "ZIP 必须且只能包含一个技能（检测到一个 SKILL.md）" -/
  | manifestCountNotOne
  /-- `_parse_skill_markdown` / `_rewrite_frontmatter_name` failures -/
  | parseError (msg : List Char)
  /-- "目标已存在" -/
  | targetExists
  /-- "目标不存在" / "文件不存在" -/
  | targetMissing
  /-- "仅支持读取/创建/编辑文本文件" -/
  | notTextFile
  /-- "SKILL.md frontmatter.name 必须与 skill slug 一致" -/
  | nameMismatch
  /-- "不允许删除根目录 SKILL.md" -/
  | rootManifestDelete
  /-- "技能目录冲突，请重试: {slug}" -/
  | slugConflict (slug : List Char)
  /-- failure of `repo.create` during import -/
  | repoCreateFailed
  /-- "技能 '{slug}' 不存在" -/
  | skillNotFound
  /-- failure of `repo.delete` during `delete_skill` -/
  | repoDeleteFailed
deriving DecidableEq, Repr

/-! ### POSIX pure-path model -/

/-- `PurePosixPath(rel).parts` for a relative path string: split on `/`,
dropping empty components and `.` components (`pathlib` normalises both away
at construction). -/
def posixParts (rel : List Char) : List (List Char) :=
  (chSplit '/' rel).filter (fun p => !(p.isEmpty || p == ".".data))

/-- `PurePosixPath(name).is_absolute()`: the path string starts with `/`. -/
def posixIsAbsolute : List Char → Bool
  | '/' :: _ => true
  | _ => false

/-- The string-normalisation prefix of `_resolve_relative_path`:
`(relative_path or "").strip().replace("\\", "/").lstrip("/")`. -/
def normalizeRel (relative_path : List Char) : List Char :=
  lstripSlash (replaceBackslash (pyStrip relative_path))

/-- `skill_service._resolve_relative_path`.  `resolveFn` stands for
`Path.resolve()` (symlink/`..` resolution by the OS); the
`target.relative_to(skill_dir)` membership check of the source is the lexical
components-prefix test of `pathlib`. Returns the resolved target and the
normalised relative string `rel`, as the source does. -/
def _resolve_relative_path (resolveFn : List (List Char) → List (List Char))
    (skill_dir : List (List Char)) (relative_path : List Char) (allow_root : Bool) :
    Except SkillError (List (List Char) × List Char) :=
  if (normalizeRel relative_path).isEmpty && !allow_root then .error .emptyPath
  else if (posixParts (normalizeRel relative_path)).contains "..".data then
    .error .parentTraversal
  else if skill_dir.isPrefixOf (resolveFn (skill_dir ++ posixParts (normalizeRel relative_path))) then
    .ok (resolveFn (skill_dir ++ posixParts (normalizeRel relative_path)), normalizeRel relative_path)
  else .error .outsideRoot

example : _resolve_relative_path id ["skills".data, "demo".data] "a\\b.md".data false
    = .ok (["skills".data, "demo".data, "a".data, "b.md".data], "a/b.md".data) := by decide

example : _resolve_relative_path id ["skills".data, "demo".data] "/a.md".data false
    = .ok (["skills".data, "demo".data, "a.md".data], "a.md".data) := by decide

example : _resolve_relative_path id ["skills".data, "demo".data] "../../etc/passwd".data false
    = .error .parentTraversal := by decide

example : _resolve_relative_path id ["skills".data, "demo".data] "".data false
    = .error .emptyPath := by decide

example : _resolve_relative_path id ["skills".data, "demo".data] "".data true
    = .ok (["skills".data, "demo".data], [] ) := by decide

example : _resolve_relative_path (fun _ => ["etc".data]) ["skills".data, "demo".data] "x.md".data false
    = .error .outsideRoot := by decide

/-- C1: for every symlink-resolution behaviour and every skill root,
`_resolve_relative_path` (i) always rejects `"../../etc/passwd"` with the
parent-traversal error, (ii) rejects the empty path whenever `allow_root` is
not set, (iii) rejects any path whose normalised form contains a `..`
segment, and (iv) on success returns a resolved target that is a descendant
of the skill root, together with the backslash-normalised, leading-slash
stripped relative string — so no successful result ever points outside the
skill root. -/
theorem c1_resolve_relative_path_safety
    (resolveFn : List (List Char) → List (List Char)) (skill_dir : List (List Char)) :
    (∀ allow_root, _resolve_relative_path resolveFn skill_dir "../../etc/passwd".data allow_root
        = .error .parentTraversal)
    ∧ (∀ relative_path, (normalizeRel relative_path).isEmpty = true →
        _resolve_relative_path resolveFn skill_dir relative_path false = .error .emptyPath)
    ∧ (∀ relative_path allow_root,
        (posixParts (normalizeRel relative_path)).contains "..".data = true →
        _resolve_relative_path resolveFn skill_dir relative_path allow_root
          = .error .parentTraversal)
    ∧ (∀ relative_path allow_root target rel,
        _resolve_relative_path resolveFn skill_dir relative_path allow_root
          = .ok (target, rel) →
        skill_dir.isPrefixOf target = true ∧ rel = normalizeRel relative_path) := by
  refine ⟨?_, ?_, ?_, ?_⟩
  · intro allow_root
    unfold _resolve_relative_path
    have h1 : (normalizeRel "../../etc/passwd".data).isEmpty = false := by decide
    rw [if_neg (by rw [h1]; simp), if_pos (by decide)]
  · intro relative_path hempty
    unfold _resolve_relative_path
    rw [if_pos (by rw [hempty]; rfl)]
  · intro relative_path allow_root hparts
    unfold _resolve_relative_path
    have hempty : (normalizeRel relative_path).isEmpty = false := by
      cases hn : normalizeRel relative_path with
      | nil => rw [hn] at hparts; exact absurd hparts (by decide)
      | cons a l => rfl
    rw [if_neg (by rw [hempty]; simp), if_pos hparts]
  · intro relative_path allow_root target rel h
    unfold _resolve_relative_path at h
    split at h
    · exact absurd h (by simp)
    · split at h
      · exact absurd h (by simp)
      · split at h
        · rename_i hpre
          injection h with h'
          injection h' with ha hb
          subst ha
          subst hb
          exact ⟨hpre, rfl⟩
        · exact absurd h (by simp)

/-- C1 witness: concrete instantiation of `c1_resolve_relative_path_safety`
at the identity resolver and a concrete skill root and path. -/
theorem c1_witness :
    List.isPrefixOf ["skills".data, "demo".data]
        (["skills".data, "demo".data] ++ posixParts "a/b.md".data) = true
    ∧ "a/b.md".data = normalizeRel "a/b.md".data :=
  (c1_resolve_relative_path_safety id ["skills".data, "demo".data]).2.2.2
    "a/b.md".data false (["skills".data, "demo".data] ++ posixParts "a/b.md".data)
    "a/b.md".data (by decide)

/-! ### Node deletion (`delete_skill_node`) -/

/-- The destructive filesystem action `delete_skill_node` ends with. -/
inductive NodeDeleteAction where
  /-- `shutil.rmtree(target)` -/
  | rmtree (target : List (List Char))
  /-- `target.unlink()` -/
  | unlink (target : List (List Char))
deriving DecidableEq, Repr

/-- `skill_service.delete_skill_node` after the skill lookup: resolve the
relative path with `allow_root=False`, require the target to exist, refuse
when the *normalised relative string* equals `"SKILL.md"`, then remove the
target (tree or file).  `existsFn`/`isDirFn` model `Path.exists`/`Path.is_dir`
on the concrete filesystem. -/
def delete_skill_node (resolveFn : List (List Char) → List (List Char))
    (skill_dir : List (List Char))
    (existsFn isDirFn : List (List Char) → Bool)
    (relative_path : List Char) : Except SkillError NodeDeleteAction :=
  match _resolve_relative_path resolveFn skill_dir relative_path false with
  | .error e => .error e
  | .ok (target, rel) =>
    if existsFn target = false then .error .targetMissing
    else if rel == "SKILL.md".data then .error .rootManifestDelete
    else if isDirFn target then .ok (.rmtree target)
    else .ok (.unlink target)

/-- C3: the guard protecting the root manifest compares the normalised
relative *string* with `"SKILL.md"`, not the resolved target.  The spellings
`"SKILL.md"` and `"/SKILL.md"` are refused, but `"./SKILL.md"` — whose
resolved target is exactly the root manifest file — slips past the guard and
`delete_skill_node` unlinks the root `SKILL.md`: the claim (and the spec's
"the root manifest can never be deleted") is violated by the code. -/
theorem c3_delete_skill_node_dot_slash_deletes_root_manifest :
    delete_skill_node id ["skills".data, "demo".data]
        (fun _ => true) (fun _ => false) "SKILL.md".data
      = .error .rootManifestDelete
    ∧ delete_skill_node id ["skills".data, "demo".data]
        (fun _ => true) (fun _ => false) "/SKILL.md".data
      = .error .rootManifestDelete
    ∧ delete_skill_node id ["skills".data, "demo".data]
        (fun _ => true) (fun _ => false) "./SKILL.md".data
      = .ok (.unlink ["skills".data, "demo".data, "SKILL.md".data]) := by
  refine ⟨by decide, by decide, by decide⟩

/-! ### Slug allocation (`_generate_available_slug`) -/

/-- The probe candidate `f"{base_slug}-v{idx}"`. -/
def slugCandidate (base : List Char) (idx : Nat) : List Char :=
  base ++ "-v".data ++ (Nat.repr idx).data

/-- A slug is taken when `repo.exists_slug` holds or the skills-root directory
has an entry of that name. -/
def slugTakenB (repoSlugs diskEntries : List (List Char)) (s : List Char) : Bool :=
  repoSlugs.contains s || diskEntries.contains s

/-- The `while True` probe loop of `_generate_available_slug`, made total with
explicit fuel; the fuel chosen below always suffices, as proved for C4. -/
def probeSlug (repoSlugs diskEntries : List (List Char)) (base : List Char) :
    Nat → Nat → List Char
  | idx, 0 => slugCandidate base idx
  | idx, fuel + 1 =>
    if slugTakenB repoSlugs diskEntries (slugCandidate base idx) then
      probeSlug repoSlugs diskEntries base (idx + 1) fuel
    else slugCandidate base idx

/-- `skill_service._generate_available_slug`: return `base_slug` when it is
free in both the repository and the skills root; otherwise probe
`base-v2`, `base-v3`, … until a free candidate is found. -/
def _generate_available_slug (repoSlugs diskEntries : List (List Char))
    (base_slug : List Char) : List Char :=
  if slugTakenB repoSlugs diskEntries base_slug = false then base_slug
  else probeSlug repoSlugs diskEntries base_slug 2
    (repoSlugs.length + diskEntries.length + 1)

example : _generate_available_slug ["demo".data] [] "demo".data = "demo-v2".data := by decide
example : _generate_available_slug ["demo".data, "demo-v2".data] [] "demo".data
    = "demo-v3".data := by decide
example : _generate_available_slug ["other".data] [] "demo".data = "demo".data := by decide

theorem slugCandidate_injective (base : List Char) {i j : Nat}
    (h : slugCandidate base i = slugCandidate base j) : i = j := by
  unfold slugCandidate at h
  rw [List.append_assoc, List.append_assoc] at h
  have h1 := List.append_cancel_left h
  have h2 := List.append_cancel_left h1
  exact repr_data_injective h2

theorem probeSlug_taken_all (repoSlugs diskEntries : List (List Char)) (base : List Char) :
    ∀ fuel idx,
      slugTakenB repoSlugs diskEntries (probeSlug repoSlugs diskEntries base idx fuel) = true →
      ∀ j, j ≤ fuel → slugTakenB repoSlugs diskEntries (slugCandidate base (idx + j)) = true := by
  intro fuel
  induction fuel with
  | zero =>
    intro idx h j hj
    interval_cases j
    simpa using h
  | succ fuel ih =>
    intro idx h j hj
    by_cases htaken : slugTakenB repoSlugs diskEntries (slugCandidate base idx) = true
    · rw [probeSlug, if_pos htaken] at h
      cases j with
      | zero => simpa using htaken
      | succ j =>
        have := ih (idx + 1) h j (by omega)
        have harith : idx + 1 + j = idx + (j + 1) := by omega
        rwa [harith] at this
    · rw [probeSlug, if_neg htaken] at h
      exact absurd h htaken

theorem exists_free_candidate (repoSlugs diskEntries : List (List Char)) (base : List Char) :
    ¬ ∀ j, j ≤ repoSlugs.length + diskEntries.length →
        slugTakenB repoSlugs diskEntries (slugCandidate base (2 + j)) = true := by
  intro hall
  set n := repoSlugs.length + diskEntries.length with hn
  have hinj : Function.Injective (fun j : Nat => slugCandidate base (2 + j)) := by
    intro a b hab
    have := slugCandidate_injective base hab
    omega
  have hsub : (Finset.range (n + 1)).image (fun j => slugCandidate base (2 + j))
      ⊆ (repoSlugs ++ diskEntries).toFinset := by
    intro s hs
    rw [Finset.mem_image] at hs
    obtain ⟨j, hj, rfl⟩ := hs
    rw [Finset.mem_range] at hj
    have := hall j (by omega)
    rw [slugTakenB, Bool.or_eq_true, List.contains, List.contains, List.elem_iff,
      List.elem_iff] at this
    rw [List.mem_toFinset, List.mem_append]
    exact this
  have hcard1 : ((Finset.range (n + 1)).image (fun j => slugCandidate base (2 + j))).card
      = n + 1 := by
    rw [Finset.card_image_of_injective _ hinj, Finset.card_range]
  have hcard2 := Finset.card_le_card hsub
  rw [hcard1] at hcard2
  have hcard3 := (repoSlugs ++ diskEntries).toFinset_card_le
  rw [List.length_append] at hcard3
  omega

theorem probeSlug_first_free (repoSlugs diskEntries : List (List Char)) (base : List Char) :
    ∀ fuel idx,
      (∃ j, j ≤ fuel ∧ slugTakenB repoSlugs diskEntries (slugCandidate base (idx + j)) = false) →
      ∃ k, probeSlug repoSlugs diskEntries base idx fuel = slugCandidate base (idx + k)
        ∧ slugTakenB repoSlugs diskEntries (slugCandidate base (idx + k)) = false
        ∧ ∀ j, j < k → slugTakenB repoSlugs diskEntries (slugCandidate base (idx + j)) = true := by
  intro fuel
  induction fuel with
  | zero =>
    intro idx ⟨j, hj, hfree⟩
    interval_cases j
    exact ⟨0, by rw [probeSlug, Nat.add_zero], hfree, by omega⟩
  | succ fuel ih =>
    intro idx ⟨j, hj, hfree⟩
    by_cases htaken : slugTakenB repoSlugs diskEntries (slugCandidate base idx) = true
    · have hj0 : j ≠ 0 := by
        intro h0
        rw [h0, Nat.add_zero] at hfree
        rw [htaken] at hfree
        exact absurd hfree (by decide)
      obtain ⟨j', rfl⟩ : ∃ j', j = j' + 1 := ⟨j - 1, by omega⟩
      have hstep : idx + (j' + 1) = idx + 1 + j' := by omega
      rw [hstep] at hfree
      obtain ⟨k, hk1, hk2, hk3⟩ := ih (idx + 1) ⟨j', by omega, hfree⟩
      refine ⟨k + 1, ?_, ?_, ?_⟩
      · rw [probeSlug, if_pos htaken, hk1]
        congr 1
        omega
      · have : idx + (k + 1) = idx + 1 + k := by omega
        rw [this]
        exact hk2
      · intro j hjk
        cases j with
        | zero => simpa using htaken
        | succ j =>
          have := hk3 j (by omega)
          have harith : idx + 1 + j = idx + (j + 1) := by omega
          rwa [harith] at this
    · rw [probeSlug, if_neg htaken]
      refine ⟨0, by rw [Nat.add_zero], ?_, by omega⟩
      rw [Nat.add_zero]
      cases hb : slugTakenB repoSlugs diskEntries (slugCandidate base idx) with
      | false => rfl
      | true => exact absurd hb htaken

/-- C4: `_generate_available_slug` never returns a slug present in the
repository or on disk at call time; when the base is free it returns the base
itself, and when the base is taken it returns the first free candidate in the
probe order `base-v2`, `base-v3`, …. -/
theorem c4_generate_available_slug_spec (repoSlugs diskEntries : List (List Char))
    (base : List Char) :
    slugTakenB repoSlugs diskEntries (_generate_available_slug repoSlugs diskEntries base) = false
    ∧ (slugTakenB repoSlugs diskEntries base = false →
        _generate_available_slug repoSlugs diskEntries base = base)
    ∧ (slugTakenB repoSlugs diskEntries base = true →
        ∃ k, _generate_available_slug repoSlugs diskEntries base = slugCandidate base (2 + k)
          ∧ slugTakenB repoSlugs diskEntries (slugCandidate base (2 + k)) = false
          ∧ ∀ j, j < k → slugTakenB repoSlugs diskEntries (slugCandidate base (2 + j)) = true) := by
  have hex : ∃ j, j ≤ repoSlugs.length + diskEntries.length + 1
      ∧ slugTakenB repoSlugs diskEntries (slugCandidate base (2 + j)) = false := by
    by_contra hno
    push_neg at hno
    apply exists_free_candidate repoSlugs diskEntries base
    intro j hj
    exact Bool.ne_false_iff.mp (hno j (by omega))
  refine ⟨?_, ?_, ?_⟩
  · by_cases hbase : slugTakenB repoSlugs diskEntries base = false
    · rw [_generate_available_slug, if_pos hbase]
      exact hbase
    · rw [_generate_available_slug, if_neg hbase]
      obtain ⟨k, hk1, hk2, _⟩ := probeSlug_first_free repoSlugs diskEntries base
        (repoSlugs.length + diskEntries.length + 1) 2 hex
      rw [hk1]
      exact hk2
  · intro hbase
    rw [_generate_available_slug, if_pos hbase]
  · intro hbase
    rw [_generate_available_slug, if_neg (by rw [hbase]; exact fun h => nomatch h)]
    exact probeSlug_first_free repoSlugs diskEntries base
      (repoSlugs.length + diskEntries.length + 1) 2 hex

/-- C4 witness: with slug `demo` existing the allocator yields `demo-v2`, with
`demo` and `demo-v2` existing it yields `demo-v3`, the result is never taken,
and the first-free-candidate characterisation holds at a concrete input. -/
theorem c4_witness :
    _generate_available_slug ["demo".data] [] "demo".data = "demo-v2".data
    ∧ _generate_available_slug ["demo".data, "demo-v2".data] [] "demo".data = "demo-v3".data
    ∧ slugTakenB ["demo".data] [] (_generate_available_slug ["demo".data] [] "demo".data) = false
    ∧ ∃ k, _generate_available_slug ["demo".data] [] "demo".data
          = slugCandidate "demo".data (2 + k)
        ∧ slugTakenB ["demo".data] [] (slugCandidate "demo".data (2 + k)) = false
        ∧ ∀ j, j < k → slugTakenB ["demo".data] [] (slugCandidate "demo".data (2 + j)) = true :=
  ⟨by decide, by decide,
    (c4_generate_available_slug_spec ["demo".data] [] "demo".data).1,
    (c4_generate_available_slug_spec ["demo".data] [] "demo".data).2.2 (by decide)⟩

/-! ### Zip import (`import_skill_zip`) -/

/-- One file entry of the uploaded zip archive. -/
structure ZipEntry where
  path : List Char
  content : List Char
deriving DecidableEq, Repr

/-- `skill_service._validate_zip_paths`: reject the first entry name that is
absolute or contains a `..` segment. -/
def _validate_zip_paths : List (List Char) → Except SkillError Unit
  | [] => .ok ()
  | name :: rest =>
    if posixIsAbsolute name then .error (.zipAbsolutePath name)
    else if (posixParts name).contains "..".data then .error (.zipTraversal name)
    else _validate_zip_paths rest

/-- The frontmatter-processing interface used by the import path:
`_parse_skill_markdown` (returning the validated `name` and `description`)
and `_rewrite_frontmatter_name`.  Their internals are the behaviour of the
external `re`/`yaml` libraries, so they are kept as an abstract parameter;
properties of the rewrite/parse round trip enter theorems as explicit
hypotheses. -/
structure ParseLib where
  parse : List Char → Except SkillError (List Char × List Char)
  rewrite_frontmatter_name : List Char → List Char → Except SkillError (List Char)

/-- `extract_dir.rglob("SKILL.md")`: the distinct extracted file paths whose
final component is `SKILL.md`. -/
def manifestRelPaths (entries : List ZipEntry) : List (List Char) :=
  (dedupFirst [] (entries.map (·.path))).filter
    (fun p => (posixParts p).getLastD [] == "SKILL.md".data)

/-- Content of the extracted file at path `p` (the last archive entry for a
path wins, as with sequential `extractall`). -/
def entryContent (entries : List ZipEntry) (p : List Char) : List Char :=
  ((entries.filter (fun e => e.path == p)).getLast?).elim [] (·.content)

/-- Where a filesystem operation lands: the private temporary import
directory, or the published skills root. -/
inductive Area where
  | scratch
  | skillsRoot
deriving DecidableEq, Repr

/-- Trace entry for one filesystem mutation performed by the import. -/
inductive FsOp where
  | write (area : Area) (path : List Char)
  | renameInto (area : Area) (path : List Char)
  | remove (area : Area) (path : List Char)
deriving DecidableEq, Repr

def FsOp.area : FsOp → Area
  | .write a _ => a
  | .renameInto a _ => a
  | .remove a _ => a

def FsOp.opPath : FsOp → List Char
  | .write _ p => p
  | .renameInto _ p => p
  | .remove _ p => p

/-- An extraction write of `zf.extractall(extract_dir)`. -/
def isExtractOp (op : FsOp) : Bool :=
  "extract/".data.isPrefixOf op.opPath

/-- The writes performed by `zf.extractall(extract_dir)`, one per entry,
inside the scratch area. -/
def importExtractOps (entries : List ZipEntry) : List FsOp :=
  entries.map (fun e => .write .scratch ("extract/".data ++ e.path))

/-- The hidden temporary directory name `f".{final_slug}.tmp-{uuid}"` inside
the skills root (the fresh uuid suffix is elided). -/
def tmpTargetName (slug : List Char) : List Char :=
  ".".data ++ slug ++ ".tmp".data

/-- Outcome record of a successful `import_skill_zip`: the created `Skill`
row fields together with the published manifest content and the archive
directory that became the skill root. -/
structure ImportResult where
  slug : List Char
  name : List Char
  description : List Char
  parsed_name : List Char
  orig_content : List Char
  manifest_content : List Char
  source_dir : List (List Char)
deriving DecidableEq, Repr

/-- `skill_service.import_skill_zip`, with the database session abstracted to
the repository slug list and `repo.create` failure flag, and the filesystem
abstracted to the disk entry list plus an explicit operation trace:
check the `.zip` filename; write the upload into scratch; validate entry
paths; extract into scratch; require exactly one `SKILL.md`; parse it;
allocate the final slug; rewrite the manifest name when the slug differs;
copy to the staging dir; move under a hidden name into the skills root;
fail on a final-directory collision; rename to the final slug; create the
repository row (removing the published directory if that fails). -/
def import_skill_zip (lib : ParseLib) (filename : List Char) (entries : List ZipEntry)
    (repoSlugs diskEntries : List (List Char)) (repoCreateFails : Bool) :
    List FsOp × Except SkillError ImportResult :=
  if ".zip".data.isSuffixOf (pyLower filename) = false then ([], .error .notZipFilename)
  else
    match _validate_zip_paths (entries.map (·.path)) with
    | .error e => ([.write .scratch "upload.zip".data], .error e)
    | .ok _ =>
      match manifestRelPaths entries with
      | [skillMdPath] =>
        match lib.parse (entryContent entries skillMdPath) with
        | .error e =>
          (.write .scratch "upload.zip".data :: importExtractOps entries, .error e)
        | .ok (parsed_name, parsed_desc) =>
          match ((if _generate_available_slug repoSlugs diskEntries parsed_name = parsed_name then
              .ok (entryContent entries skillMdPath, ([] : List FsOp))
            else
              match lib.rewrite_frontmatter_name (entryContent entries skillMdPath)
                  (_generate_available_slug repoSlugs diskEntries parsed_name) with
              | .error e => .error e
              | .ok c =>
                .ok (c, [.write .scratch ("extract/".data ++ skillMdPath)])) :
              Except SkillError (List Char × List FsOp)) with
          | .error e =>
            (.write .scratch "upload.zip".data :: importExtractOps entries, .error e)
          | .ok (final_content, trRw) =>
            if diskEntries.contains (_generate_available_slug repoSlugs diskEntries parsed_name)
            then
              ((.write .scratch "upload.zip".data :: importExtractOps entries) ++ trRw
                  ++ [.write .scratch "stage".data,
                    .renameInto .skillsRoot
                      (tmpTargetName (_generate_available_slug repoSlugs diskEntries parsed_name)),
                    .remove .skillsRoot
                      (tmpTargetName (_generate_available_slug repoSlugs diskEntries parsed_name))],
                .error (.slugConflict (_generate_available_slug repoSlugs diskEntries parsed_name)))
            else if repoCreateFails then
              ((.write .scratch "upload.zip".data :: importExtractOps entries) ++ trRw
                  ++ [.write .scratch "stage".data,
                    .renameInto .skillsRoot
                      (tmpTargetName (_generate_available_slug repoSlugs diskEntries parsed_name)),
                    .renameInto .skillsRoot (_generate_available_slug repoSlugs diskEntries parsed_name),
                    .remove .skillsRoot (_generate_available_slug repoSlugs diskEntries parsed_name)],
                .error .repoCreateFailed)
            else
              ((.write .scratch "upload.zip".data :: importExtractOps entries) ++ trRw
                  ++ [.write .scratch "stage".data,
                    .renameInto .skillsRoot
                      (tmpTargetName (_generate_available_slug repoSlugs diskEntries parsed_name)),
                    .renameInto .skillsRoot (_generate_available_slug repoSlugs diskEntries parsed_name)],
                .ok {
                  slug := _generate_available_slug repoSlugs diskEntries parsed_name
                  name :=
                    if _generate_available_slug repoSlugs diskEntries parsed_name = parsed_name
                    then parsed_name
                    else _generate_available_slug repoSlugs diskEntries parsed_name
                  description := parsed_desc
                  parsed_name := parsed_name
                  orig_content := entryContent entries skillMdPath
                  manifest_content := final_content
                  source_dir := (posixParts skillMdPath).dropLast })
      | _ =>
        (.write .scratch "upload.zip".data :: importExtractOps entries,
          .error .manifestCountNotOne)

/-- Join character lists with a separator, inverse of `chSplit`. -/
def chIntercalate (sep : Char) : List (List Char) → List Char
  | [] => []
  | [g] => g
  | g :: g' :: gs => g ++ sep :: chIntercalate sep (g' :: gs)

/-- Concrete frontmatter implementation used to evaluate `ParseLib`-generic
theorems on concrete inputs: it handles manifests of the exact shape
`---\nname: N\ndescription: D\n---\n…` (a stand-in for the behaviour of the
external `re`/`yaml` machinery on such documents, not repository code). -/
def simpleParse (c : List Char) : Except SkillError (List Char × List Char) :=
  match chSplit '\n' c with
  | fm0 :: l1 :: l2 :: fm1 :: _ =>
    if fm0 == "---".data && fm1 == "---".data && "name: ".data.isPrefixOf l1
        && "description: ".data.isPrefixOf l2 then
      .ok (l1.drop 6, l2.drop 13)
    else .error (.parseError "frontmatter".data)
  | _ => .error (.parseError "frontmatter".data)

/-- Concrete companion of `simpleParse` replacing the `name:` line. -/
def simpleRewrite (c new_name : List Char) : Except SkillError (List Char) :=
  match chSplit '\n' c with
  | fm0 :: _ :: rest =>
    .ok (chIntercalate '\n' (fm0 :: ("name: ".data ++ new_name) :: rest))
  | _ => .error (.parseError "frontmatter".data)

def simpleFrontmatterLib : ParseLib :=
  ⟨simpleParse, simpleRewrite⟩

example : simpleParse "---\nname: demo\ndescription: d\n---\nbody".data
    = .ok ("demo".data, "d".data) := by decide

example : simpleRewrite "---\nname: demo\ndescription: d\n---\nbody".data "demo-v2".data
    = .ok "---\nname: demo-v2\ndescription: d\n---\nbody".data := by decide

example :
    (import_skill_zip simpleFrontmatterLib "demo.zip".data
      [⟨"demo/SKILL.md".data, "---\nname: demo\ndescription: d\n---\nbody".data⟩,
       ⟨"demo/prompts/system.md".data, "sys".data⟩]
      ["demo".data] [] false).2
    = .ok {
        slug := "demo-v2".data
        name := "demo-v2".data
        description := "d".data
        parsed_name := "demo".data
        orig_content := "---\nname: demo\ndescription: d\n---\nbody".data
        manifest_content := "---\nname: demo-v2\ndescription: d\n---\nbody".data
        source_dir := ["demo".data] } := by decide

example :
    (import_skill_zip simpleFrontmatterLib "demo.zip".data
      [⟨"../evil.txt".data, "x".data⟩]
      [] [] false)
    = ([.write .scratch "upload.zip".data], .error (.zipTraversal "../evil.txt".data)) := by
  decide

example :
    (import_skill_zip simpleFrontmatterLib "demo.zip".data
      [⟨"a/SKILL.md".data, "---\nname: a\ndescription: d\n---\n".data⟩,
       ⟨"b/SKILL.md".data, "---\nname: b\ndescription: d\n---\n".data⟩]
      [] [] false).2
    = .error .manifestCountNotOne := by decide

theorem validate_zip_paths_error_of_bad (names : List (List Char))
    (h : ∃ n ∈ names, posixIsAbsolute n = true ∨ (posixParts n).contains "..".data = true) :
    ∃ err, _validate_zip_paths names = .error err := by
  induction names with
  | nil => obtain ⟨n, hn, _⟩ := h; exact absurd hn (List.not_mem_nil n)
  | cons name rest ih =>
    by_cases habs : posixIsAbsolute name = true
    · exact ⟨.zipAbsolutePath name, by rw [_validate_zip_paths, if_pos habs]⟩
    · by_cases hdots : (posixParts name).contains "..".data = true
      · exact ⟨.zipTraversal name, by rw [_validate_zip_paths, if_neg habs, if_pos hdots]⟩
      · obtain ⟨n, hn, hbad⟩ := h
        rcases List.mem_cons.mp hn with rfl | hmem
        · rcases hbad with hb | hb
          · exact absurd hb habs
          · exact absurd hb hdots
        · obtain ⟨err, herr⟩ := ih ⟨n, hmem, hbad⟩
          exact ⟨err, by rw [_validate_zip_paths, if_neg habs, if_neg hdots]; exact herr⟩

/-- C2: if any archive entry path is absolute or contains a `..` segment,
the import fails and the only filesystem write so far is the upload copy inside
the private scratch directory — nothing has been extracted and nothing has
been written outside the scratch area; conversely, whenever the trace
contains an extraction write, path validation had succeeded on every entry. -/
theorem c2_import_rejects_traversal_zip (lib : ParseLib) (filename : List Char)
    (entries : List ZipEntry) (repoSlugs diskEntries : List (List Char))
    (repoCreateFails : Bool) :
    ((∃ e ∈ entries, posixIsAbsolute e.path = true
        ∨ (posixParts e.path).contains "..".data = true) →
      (∃ err, (import_skill_zip lib filename entries repoSlugs diskEntries repoCreateFails).2
          = .error err)
      ∧ ((import_skill_zip lib filename entries repoSlugs diskEntries repoCreateFails).1 = []
        ∨ (import_skill_zip lib filename entries repoSlugs diskEntries repoCreateFails).1
          = [.write .scratch "upload.zip".data]))
    ∧ (∀ op ∈ (import_skill_zip lib filename entries repoSlugs diskEntries repoCreateFails).1,
        isExtractOp op = true →
        _validate_zip_paths (entries.map (·.path)) = .ok ()) := by
  constructor
  · intro hbad
    have hval : ∃ err, _validate_zip_paths (entries.map (·.path)) = .error err := by
      apply validate_zip_paths_error_of_bad
      obtain ⟨e, he, hb⟩ := hbad
      exact ⟨e.path, List.mem_map.mpr ⟨e, he, rfl⟩, hb⟩
    obtain ⟨err, herr⟩ := hval
    rw [import_skill_zip]
    by_cases hzip : ".zip".data.isSuffixOf (pyLower filename) = false
    · rw [if_pos hzip]
      exact ⟨⟨.notZipFilename, rfl⟩, Or.inl rfl⟩
    · rw [if_neg hzip, herr]
      exact ⟨⟨err, rfl⟩, Or.inr rfl⟩
  · intro op hop hex
    rw [import_skill_zip] at hop
    split at hop
    · exact absurd hop (List.not_mem_nil op)
    · split at hop
      · rename_i e heq
        rcases List.mem_singleton.mp hop with rfl
        exact absurd hex (by decide)
      · rename_i u heq
        rw [heq]

/-- C2 witness: a concrete archive containing the entry `"../evil.txt"` is
rejected with only the scratch upload write performed. -/
theorem c2_witness :
    (∃ err, (import_skill_zip simpleFrontmatterLib "demo.zip".data
        [⟨"../evil.txt".data, "x".data⟩] [] [] false).2 = .error err)
    ∧ ((import_skill_zip simpleFrontmatterLib "demo.zip".data
        [⟨"../evil.txt".data, "x".data⟩] [] [] false).1 = []
      ∨ (import_skill_zip simpleFrontmatterLib "demo.zip".data
        [⟨"../evil.txt".data, "x".data⟩] [] [] false).1
        = [.write .scratch "upload.zip".data]) :=
  (c2_import_rejects_traversal_zip simpleFrontmatterLib "demo.zip".data
    [⟨"../evil.txt".data, "x".data⟩] [] [] false).1
    ⟨⟨"../evil.txt".data, "x".data⟩, by decide, by decide⟩

theorem importExtractOps_area (entries : List ZipEntry) :
    ∀ op ∈ importExtractOps entries, op.area = .scratch := by
  intro op hop
  rw [importExtractOps, List.mem_map] at hop
  obtain ⟨e, _, rfl⟩ := hop
  rfl

/-- C5: when the number of distinct `SKILL.md` files in the archive differs
from one, `import_skill_zip` fails and every filesystem operation it
performed lies in the private scratch area (no directory is created under
the skills root); reaching the manifest count check (well-formed filename,
validated paths) the error is exactly the one-manifest `ValidationError`.
On success there is exactly one manifest file and its containing directory
is the imported skill's root. -/
theorem c5_import_requires_single_manifest (lib : ParseLib) (filename : List Char)
    (entries : List ZipEntry) (repoSlugs diskEntries : List (List Char))
    (repoCreateFails : Bool) :
    ((manifestRelPaths entries).length ≠ 1 →
      (∃ err, (import_skill_zip lib filename entries repoSlugs diskEntries repoCreateFails).2
          = .error err)
      ∧ (∀ op ∈ (import_skill_zip lib filename entries repoSlugs diskEntries repoCreateFails).1,
          op.area = .scratch))
    ∧ ((manifestRelPaths entries).length ≠ 1 →
        ".zip".data.isSuffixOf (pyLower filename) = true →
        _validate_zip_paths (entries.map (·.path)) = .ok () →
        (import_skill_zip lib filename entries repoSlugs diskEntries repoCreateFails).2
          = .error .manifestCountNotOne)
    ∧ (∀ tr res,
        import_skill_zip lib filename entries repoSlugs diskEntries repoCreateFails
          = (tr, .ok res) →
        ∃ p, manifestRelPaths entries = [p] ∧ res.source_dir = (posixParts p).dropLast) := by
  refine ⟨?_, ?_, ?_⟩
  · intro hcount
    rw [import_skill_zip]
    by_cases hzip : ".zip".data.isSuffixOf (pyLower filename) = false
    · rw [if_pos hzip]
      exact ⟨⟨.notZipFilename, rfl⟩, by intro op hop; exact absurd hop (List.not_mem_nil op)⟩
    · rw [if_neg hzip]
      cases hval : _validate_zip_paths (entries.map (·.path)) with
      | error e =>
        refine ⟨⟨e, rfl⟩, ?_⟩
        intro op hop
        rcases List.mem_singleton.mp hop with rfl
        rfl
      | ok u =>
        cases hm : manifestRelPaths entries with
        | nil =>
          refine ⟨⟨.manifestCountNotOne, rfl⟩, ?_⟩
          intro op hop
          rcases List.mem_cons.mp hop with rfl | hmem
          · rfl
          · exact importExtractOps_area entries op hmem
        | cons p rest =>
          cases rest with
          | nil => exact absurd (by rw [hm]; rfl) hcount
          | cons q rest2 =>
            refine ⟨⟨.manifestCountNotOne, rfl⟩, ?_⟩
            intro op hop
            rcases List.mem_cons.mp hop with rfl | hmem
            · rfl
            · exact importExtractOps_area entries op hmem
  · intro hcount hzip hval
    rw [import_skill_zip, if_neg (by rw [hzip]; exact fun h => nomatch h), hval]
    cases hm : manifestRelPaths entries with
    | nil => rfl
    | cons p rest =>
      cases rest with
      | nil => exact absurd (by rw [hm]; rfl) hcount
      | cons q rest2 => rfl
  · intro tr res himp
    rw [import_skill_zip] at himp
    split at himp
    · exact absurd (congrArg Prod.snd himp) (by simp)
    · split at himp
      · exact absurd (congrArg Prod.snd himp) (by simp)
      · split at himp
        · rename_i skillMdPath hm
          refine ⟨skillMdPath, hm, ?_⟩
          split at himp
          · exact absurd (congrArg Prod.snd himp) (by simp)
          · split at himp
            · exact absurd (congrArg Prod.snd himp) (by simp)
            · split at himp
              · exact absurd (congrArg Prod.snd himp) (by simp)
              · split at himp
                · exact absurd (congrArg Prod.snd himp) (by simp)
                · have hsnd := congrArg Prod.snd himp
                  simp only at hsnd
                  injection hsnd with hres
                  rw [← hres]
        · exact absurd (congrArg Prod.snd himp) (by simp)

/-- C5 witness: a concrete archive with two `SKILL.md` files is rejected and
every performed operation stays in the scratch area. -/
theorem c5_witness :
    (∃ err, (import_skill_zip simpleFrontmatterLib "demo.zip".data
        [⟨"a/SKILL.md".data, "x".data⟩, ⟨"b/SKILL.md".data, "y".data⟩] [] [] false).2
        = .error err)
    ∧ (∀ op ∈ (import_skill_zip simpleFrontmatterLib "demo.zip".data
        [⟨"a/SKILL.md".data, "x".data⟩, ⟨"b/SKILL.md".data, "y".data⟩] [] [] false).1,
        op.area = .scratch) :=
  (c5_import_requires_single_manifest simpleFrontmatterLib "demo.zip".data
    [⟨"a/SKILL.md".data, "x".data⟩, ⟨"b/SKILL.md".data, "y".data⟩] [] [] false).1
    (by decide)

/-- C6: on any successful import the final slug is the one allocated from the
parsed manifest name; the created record's `name` equals that slug; the
original manifest parses to the parsed name and stored description; the
published manifest content is the original exactly when no renaming
happened, and otherwise is the output of `_rewrite_frontmatter_name` at the
final slug — hence (given that rewriting the name field makes the document
parse to the new name) the published manifest's name always equals the final
slug. -/
theorem c6_import_rewrites_manifest_name (lib : ParseLib) (filename : List Char)
    (entries : List ZipEntry) (repoSlugs diskEntries : List (List Char))
    (repoCreateFails : Bool) (tr : List FsOp) (res : ImportResult)
    (himp : import_skill_zip lib filename entries repoSlugs diskEntries repoCreateFails
      = (tr, .ok res)) :
    res.slug = _generate_available_slug repoSlugs diskEntries res.parsed_name
    ∧ res.name = res.slug
    ∧ lib.parse res.orig_content = .ok (res.parsed_name, res.description)
    ∧ (res.slug = res.parsed_name → res.manifest_content = res.orig_content)
    ∧ (res.slug ≠ res.parsed_name →
        lib.rewrite_frontmatter_name res.orig_content res.slug = .ok res.manifest_content)
    ∧ ((∀ c, lib.rewrite_frontmatter_name res.orig_content res.slug = .ok c →
          ∃ d, lib.parse c = .ok (res.slug, d)) →
        ∃ d, lib.parse res.manifest_content = .ok (res.slug, d)) := by
  rw [import_skill_zip] at himp
  split at himp
  · exact absurd (congrArg Prod.snd himp) (by simp)
  · split at himp
    · exact absurd (congrArg Prod.snd himp) (by simp)
    · split at himp
      · rename_i skillMdPath hm
        split at himp
        · exact absurd (congrArg Prod.snd himp) (by simp)
        · rename_i pr parsed_name parsed_desc hparse
          split at himp
          · exact absurd (congrArg Prod.snd himp) (by simp)
          · rename_i pr2 final_content trRw hrw
            split at himp
            · exact absurd (congrArg Prod.snd himp) (by simp)
            · split at himp
              · exact absurd (congrArg Prod.snd himp) (by simp)
              · have hsnd := congrArg Prod.snd himp
                simp only at hsnd
                injection hsnd with hres
                subst hres
                by_cases hslug :
                    _generate_available_slug repoSlugs diskEntries parsed_name = parsed_name
                · rw [if_pos hslug] at hrw
                  injection hrw with hrw'
                  injection hrw' with hc htr
                  refine ⟨by simp [hslug], by simp [hslug], ?_, ?_, ?_, ?_⟩
                  · simpa using hparse
                  · intro _
                    simp [← hc]
                  · intro hne
                    exact absurd (by simp [hslug]) hne
                  · intro _
                    refine ⟨parsed_desc, ?_⟩
                    simp only [← hc]
                    simp only [hslug]
                    simpa using hparse
                · rw [if_neg hslug] at hrw
                  split at hrw
                  · exact absurd hrw (by simp)
                  · rename_i c hrwok
                    injection hrw with hrw'
                    injection hrw' with hc htr
                    refine ⟨by simp [if_neg hslug], by simp [if_neg hslug], ?_, ?_, ?_, ?_⟩
                    · simpa using hparse
                    · intro heq
                      simp only at heq
                      exact absurd heq hslug
                    · intro _
                      simp only [← hc]
                      simpa using hrwok
                    · intro hround
                      apply hround
                      simp only [← hc]
                      simpa using hrwok
      · exact absurd (congrArg Prod.snd himp) (by simp)

/-- C6 witness: importing a manifest named `demo` while `demo` is taken
publishes slug `demo-v2`, record name `demo-v2`, and a manifest whose
rewritten content parses back to name `demo-v2`. -/
theorem c6_witness :
    ("demo-v2".data : List Char)
        = _generate_available_slug ["demo".data] [] "demo".data
    ∧ ("demo-v2".data : List Char) = "demo-v2".data
    ∧ ∃ d, simpleFrontmatterLib.parse "---\nname: demo-v2\ndescription: d\n---\nbody".data
        = .ok ("demo-v2".data, d) := by
  have h := c6_import_rewrites_manifest_name simpleFrontmatterLib "demo.zip".data
    [⟨"demo/SKILL.md".data, "---\nname: demo\ndescription: d\n---\nbody".data⟩]
    ["demo".data] [] false
    [.write .scratch "upload.zip".data,
     .write .scratch "extract/demo/SKILL.md".data,
     .write .scratch "extract/demo/SKILL.md".data,
     .write .scratch "stage".data,
     .renameInto .skillsRoot ".demo-v2.tmp".data,
     .renameInto .skillsRoot "demo-v2".data]
    { slug := "demo-v2".data
      name := "demo-v2".data
      description := "d".data
      parsed_name := "demo".data
      orig_content := "---\nname: demo\ndescription: d\n---\nbody".data
      manifest_content := "---\nname: demo-v2\ndescription: d\n---\nbody".data
      source_dir := ["demo".data] }
    (by decide)
  refine ⟨h.1, h.2.1, h.2.2.2.2.2 ?_⟩
  intro c hc
  have hc' : c = "---\nname: demo-v2\ndescription: d\n---\nbody".data := by
    have hval : simpleFrontmatterLib.rewrite_frontmatter_name
        "---\nname: demo\ndescription: d\n---\nbody".data "demo-v2".data
        = .ok "---\nname: demo-v2\ndescription: d\n---\nbody".data := by decide
    rw [hval] at hc
    injection hc with hc2
    exact hc2.symm
  rw [hc']
  exact ⟨"d".data, by decide⟩

/-! ### Skill deletion (`delete_skill`) -/

/-- Operations performed by `delete_skill`, in execution order. -/
inductive DelOp where
  /-- `skill_dir.rename(trash_dir)` -/
  | renameToTrash
  /-- `repo.delete(item)` -/
  | repoDelete
  /-- `trash_dir.rename(skill_dir)` in the exception handler -/
  | renameBack
  /-- `shutil.rmtree(trash_dir, ignore_errors=True)` -/
  | purgeTrash
deriving DecidableEq, Repr

/-- Filesystem/repository state relevant to `delete_skill`. -/
structure DelState where
  skillDirExists : Bool
  trashDirExists : Bool
  recordExists : Bool
deriving DecidableEq, Repr

/-- `skill_service.delete_skill`: look up the record; if the skill directory
exists, rename it to a fresh trash name; delete the repository record — on
failure rename the trash back and re-raise; on success purge the trash with
`ignore_errors=True` (`purgeFails` leaves the trash behind but never fails
the call).  Returns the operation trace, the final state, and the result. -/
def delete_skill (recordExists skillDirExists repoDeleteFails purgeFails : Bool) :
    List DelOp × DelState × Except SkillError Unit :=
  if recordExists = false then
    ([], ⟨skillDirExists, false, false⟩, .error .skillNotFound)
  else if skillDirExists then
    if repoDeleteFails then
      ([.renameToTrash, .renameBack], ⟨true, false, true⟩, .error .repoDeleteFailed)
    else
      ([.renameToTrash, .repoDelete, .purgeTrash], ⟨false, purgeFails, false⟩, .ok ())
  else
    if repoDeleteFails then
      ([], ⟨false, false, true⟩, .error .repoDeleteFailed)
    else
      ([.repoDelete], ⟨false, false, false⟩, .ok ())

/-- C7: when the persistence step fails, `delete_skill` restores the
directory exactly as it was before the call (directory present iff it was,
no trash left, record untouched) and propagates the error, having renamed to
trash first; on success — for either outcome of the best-effort purge — the
call succeeds, the record and directory are gone, and the trace renames to
trash before deleting the record and only then purges. -/
theorem c7_delete_skill_rollback (recordExists skillDirExists repoDeleteFails purgeFails : Bool) :
    (recordExists = true → repoDeleteFails = true →
      delete_skill recordExists skillDirExists repoDeleteFails purgeFails
        = ((if skillDirExists then [DelOp.renameToTrash, DelOp.renameBack] else []),
            ⟨skillDirExists, false, true⟩, .error .repoDeleteFailed))
    ∧ (recordExists = true → repoDeleteFails = false →
        delete_skill recordExists skillDirExists repoDeleteFails purgeFails
          = ((if skillDirExists
                then [DelOp.renameToTrash, DelOp.repoDelete, DelOp.purgeTrash]
                else [DelOp.repoDelete]),
              ⟨false, skillDirExists && purgeFails, false⟩, .ok ())) := by
  constructor
  · intro h1 h2
    subst h1
    subst h2
    cases skillDirExists <;> cases purgeFails <;> decide
  · intro h1 h2
    subst h1
    subst h2
    cases skillDirExists <;> cases purgeFails <;> decide

/-- C7 witness: concrete instantiations — persistence failure with the
directory present restores it and propagates; success with a failing purge
still returns success with record and directory gone. -/
theorem c7_witness :
    delete_skill true true true false
      = ([DelOp.renameToTrash, DelOp.renameBack],
          ⟨true, false, true⟩, .error .repoDeleteFailed)
    ∧ delete_skill true true false true
      = ([DelOp.renameToTrash, DelOp.repoDelete, DelOp.purgeTrash],
          ⟨false, true, false⟩, .ok ()) :=
  ⟨(c7_delete_skill_rollback true true true false).1 rfl rfl,
   (c7_delete_skill_rollback true true false true).2 rfl rfl⟩

/-! ### Node writes (`update_skill_file`, `create_skill_node`) -/

/-- The fixed allowlist `TEXT_FILE_EXTENSIONS` of `skill_service.py`. -/
def TEXT_FILE_EXTENSIONS : List (List Char) :=
  [".md".data, ".txt".data, ".py".data, ".js".data, ".ts".data, ".json".data,
   ".yaml".data, ".yml".data, ".toml".data, ".ini".data, ".cfg".data, ".conf".data,
   ".xml".data, ".html".data, ".css".data, ".sql".data, ".sh".data, ".bat".data,
   ".ps1".data, ".env".data, ".csv".data, ".tsv".data, ".rst".data, ".ipynb".data,
   ".vue".data, ".jsx".data, ".tsx".data]

/-- Indices of `.` characters in a file name. -/
def dotPositions (name : List Char) : List Nat :=
  (List.range name.length).filter (fun i => name.getD i ' ' = '.')

/-- `pathlib.PurePath.suffix` of a final component: the part from the last
dot, unless that dot is the leading or trailing character. -/
def pathSuffix (name : List Char) : List Char :=
  match (dotPositions name).getLast? with
  | some i => if 0 < i ∧ i < name.length - 1 then name.drop i else []
  | none => []

example : pathSuffix "a.PY".data = ".PY".data := by decide
example : pathSuffix ".env".data = [] := by decide
example : pathSuffix "x.env".data = ".env".data := by decide
example : pathSuffix "archive.tar.gz".data = ".gz".data := by decide

/-- `skill_service._is_text_path`: the manifest name unconditionally, else
the lower-cased suffix must be in the allowlist. -/
def _is_text_path (target : List (List Char)) : Bool :=
  target.getLastD [] == "SKILL.md".data
    || TEXT_FILE_EXTENSIONS.contains (pyLower (pathSuffix (target.getLastD [])))

example : _is_text_path ["skills".data, "demo".data, "a.PY".data] = true := by decide
example : _is_text_path ["skills".data, "demo".data, "a.exe".data] = false := by decide
example : _is_text_path ["skills".data, "demo".data, "SKILL.md".data] = true := by decide

/-- Observable side effects of a node write/create. -/
structure NodeMutationEffects where
  /-- `target.write_text(...)` happened -/
  wroteFile : Bool
  /-- `target.mkdir(...)` happened -/
  createdDir : Bool
  /-- `_parse_skill_markdown` ran on the new content -/
  parsedManifest : Bool
  /-- arguments of `repo.update_metadata`, when it was called -/
  updatedMetadata : Option (List Char × List Char)
  /-- `_set_skill_options_cache(await repo.list_all())` ran -/
  cacheRebuilt : Bool
deriving DecidableEq, Repr

/-- `skill_service.update_skill_file` after the skill lookup: resolve, require
an existing text file, and, exactly when the resolved target is the root
`SKILL.md` (`target.name == "SKILL.md" and target.parent == skill_dir`),
re-parse the new content and reject a frontmatter name differing from the
slug; afterwards write, and for the root manifest also update repository
metadata and rebuild the whole options/metadata cache. -/
def update_skill_file (lib : ParseLib)
    (resolveFn : List (List Char) → List (List Char))
    (skill_dir : List (List Char)) (slug : List Char)
    (isExistingFile : List (List Char) → Bool)
    (relative_path content : List Char) :
    Except SkillError NodeMutationEffects :=
  match _resolve_relative_path resolveFn skill_dir relative_path false with
  | .error e => .error e
  | .ok (target, _) =>
    if isExistingFile target = false then .error .targetMissing
    else if _is_text_path target = false then .error .notTextFile
    else if target.getLastD [] == "SKILL.md".data && target.dropLast == skill_dir then
      match lib.parse content with
      | .error e => .error e
      | .ok (parsed_name, parsed_desc) =>
        if parsed_name ≠ slug then .error .nameMismatch
        else .ok ⟨true, false, true, some (parsed_name, parsed_desc), true⟩
    else .ok ⟨true, false, false, none, false⟩

/-- `skill_service.create_skill_node` after the skill lookup: resolve, reject
an existing target, create a directory without any parsing when `is_dir`,
otherwise require a text path and — exactly when the resolved target is the
root `SKILL.md` — parse `content or ""` and reject a name differing from the
slug; afterwards write, and for the root manifest also update repository
metadata and rebuild the cache. -/
def create_skill_node (lib : ParseLib)
    (resolveFn : List (List Char) → List (List Char))
    (skill_dir : List (List Char)) (slug : List Char)
    (targetExistsFn : List (List Char) → Bool)
    (relative_path : List Char) (is_dir : Bool) (content : List Char) :
    Except SkillError NodeMutationEffects :=
  match _resolve_relative_path resolveFn skill_dir relative_path false with
  | .error e => .error e
  | .ok (target, _) =>
    if targetExistsFn target then .error .targetExists
    else if is_dir then .ok ⟨false, true, false, none, false⟩
    else if _is_text_path target = false then .error .notTextFile
    else if target.getLastD [] == "SKILL.md".data && target.dropLast == skill_dir then
      match lib.parse content with
      | .error e => .error e
      | .ok (parsed_name, parsed_desc) =>
        if parsed_name ≠ slug then .error .nameMismatch
        else .ok ⟨true, false, true, some (parsed_name, parsed_desc), true⟩
    else .ok ⟨true, false, false, none, false⟩

/-- C8: for a resolved target that is the skill's root manifest, both the
write and the create paths re-parse the content first and are rejected when
the parsed frontmatter name differs from the slug; on success they report
the parse, the `repo.update_metadata(name, description)` call and the
wholesale cache rebuild.  For any other resolved target they write without
parsing, without a metadata update and without a cache rebuild. -/
theorem c8_root_manifest_write_sync (lib : ParseLib)
    (resolveFn : List (List Char) → List (List Char))
    (skill_dir : List (List Char)) (slug : List Char)
    (isExistingFile targetExistsFn : List (List Char) → Bool)
    (relative_path content : List Char)
    (target : List (List Char)) (rel : List Char)
    (hres : _resolve_relative_path resolveFn skill_dir relative_path false = .ok (target, rel))
    (hexists : isExistingFile target = true)
    (hfresh : targetExistsFn target = false) :
    ((target.getLastD [] == "SKILL.md".data && target.dropLast == skill_dir) = true →
      (∀ n d, lib.parse content = .ok (n, d) → n ≠ slug →
        update_skill_file lib resolveFn skill_dir slug isExistingFile relative_path content
          = .error .nameMismatch
        ∧ create_skill_node lib resolveFn skill_dir slug targetExistsFn relative_path false content
          = .error .nameMismatch)
      ∧ (∀ n d, lib.parse content = .ok (n, d) → n = slug →
        update_skill_file lib resolveFn skill_dir slug isExistingFile relative_path content
          = .ok ⟨true, false, true, some (n, d), true⟩
        ∧ create_skill_node lib resolveFn skill_dir slug targetExistsFn relative_path false content
          = .ok ⟨true, false, true, some (n, d), true⟩))
    ∧ ((target.getLastD [] == "SKILL.md".data && target.dropLast == skill_dir) = false →
        _is_text_path target = true →
        update_skill_file lib resolveFn skill_dir slug isExistingFile relative_path content
          = .ok ⟨true, false, false, none, false⟩
        ∧ create_skill_node lib resolveFn skill_dir slug targetExistsFn relative_path false content
          = .ok ⟨true, false, false, none, false⟩) := by
  have htext_of_root :
      (target.getLastD [] == "SKILL.md".data && target.dropLast == skill_dir) = true →
      _is_text_path target = true := by
    intro hroot
    rw [Bool.and_eq_true] at hroot
    rw [_is_text_path, hroot.1, Bool.true_or]
  constructor
  · intro hroot
    have htext := htext_of_root hroot
    constructor
    · intro n d hparse hne
      constructor
      · simp only [update_skill_file, hres]; rw [ if_neg (by rw [hexists]; exact fun h => nomatch h),
          if_neg (by rw [htext]; exact fun h => nomatch h), if_pos hroot, hparse]
        simp [hne]
      · simp only [create_skill_node, hres]; rw [ if_neg (by rw [hfresh]; exact fun h => nomatch h),
          if_neg (by exact fun h => nomatch h),
          if_neg (by rw [htext]; exact fun h => nomatch h), if_pos hroot, hparse]
        simp [hne]
    · intro n d hparse heq
      constructor
      · simp only [update_skill_file, hres]; rw [ if_neg (by rw [hexists]; exact fun h => nomatch h),
          if_neg (by rw [htext]; exact fun h => nomatch h), if_pos hroot, hparse]
        simp [heq]
      · simp only [create_skill_node, hres]; rw [ if_neg (by rw [hfresh]; exact fun h => nomatch h),
          if_neg (by exact fun h => nomatch h),
          if_neg (by rw [htext]; exact fun h => nomatch h), if_pos hroot, hparse]
        simp [heq]
  · intro hroot htext
    constructor
    · simp only [update_skill_file, hres]; rw [ if_neg (by rw [hexists]; exact fun h => nomatch h),
        if_neg (by rw [htext]; exact fun h => nomatch h),
        if_neg (by rw [hroot]; exact fun h => nomatch h)]
    · simp only [create_skill_node, hres]; rw [ if_neg (by rw [hfresh]; exact fun h => nomatch h),
        if_neg (by exact fun h => nomatch h),
        if_neg (by rw [htext]; exact fun h => nomatch h),
        if_neg (by rw [hroot]; exact fun h => nomatch h)]

/-- C8 witness: concrete root-manifest update with matching name succeeds
with metadata update and cache rebuild; a write to another file reports no
parse, metadata update or rebuild. -/
theorem c8_witness :
    update_skill_file simpleFrontmatterLib id ["skills".data, "demo".data] "demo".data
        (fun _ => true) "SKILL.md".data
        "---\nname: demo\ndescription: d2\n---\nbody".data
      = .ok ⟨true, false, true, some ("demo".data, "d2".data), true⟩
    ∧ update_skill_file simpleFrontmatterLib id ["skills".data, "demo".data] "demo".data
        (fun _ => true) "notes.md".data "text".data
      = .ok ⟨true, false, false, none, false⟩ :=
  ⟨((c8_root_manifest_write_sync simpleFrontmatterLib id ["skills".data, "demo".data]
      "demo".data (fun _ => true) (fun _ => false) "SKILL.md".data
      "---\nname: demo\ndescription: d2\n---\nbody".data
      ["skills".data, "demo".data, "SKILL.md".data] "SKILL.md".data
      (by decide) rfl rfl).1 (by decide)).2 "demo".data "d2".data (by decide) rfl |>.1,
   ((c8_root_manifest_write_sync simpleFrontmatterLib id ["skills".data, "demo".data]
      "demo".data (fun _ => true) (fun _ => false) "notes.md".data "text".data
      ["skills".data, "demo".data, "notes.md".data] "notes.md".data
      (by decide) rfl rfl).2 (by decide) (by decide)).1⟩

/-! ### Composite routing backend (`composite.py`) -/

/-- A Python value as far as the backend's `isinstance` checks observe it. -/
inductive PyVal where
  | str (s : List Char)
  | nonStr
deriving DecidableEq, Repr

/-- `[a-z0-9]` -/
def isSlugChar (c : Char) : Bool :=
  ('a' ≤ c && c ≤ 'z') || ('0' ≤ c && c ≤ '9')

/-- `SKILL_NAME_PATTERN.match`, the anchored regex
`^[a-z0-9]+(-[a-z0-9]+)*$` of `skill_service.py`: every `-`-separated group
is non-empty and made of `[a-z0-9]`. -/
def skill_name_pattern_matches (s : List Char) : Bool :=
  (chSplit '-' s).all (fun g => !g.isEmpty && g.all isSlugChar)

example : skill_name_pattern_matches "deliver-prd".data = true := by decide
example : skill_name_pattern_matches "a--b".data = false := by decide
example : skill_name_pattern_matches "".data = false := by decide
example : skill_name_pattern_matches "-a".data = false := by decide
example : skill_name_pattern_matches "A1".data = false := by decide

/-- Modelled from the spec: `is_valid_skill_slug`, imported by
`composite.py` from `skill_service`, is not among the sources; spec §3 gives
the slug invariant "slug matches `^[a-z0-9]+(-[a-z0-9]+)*$`, ≤128 chars". -/
def is_valid_skill_slug (s : List Char) : Bool :=
  skill_name_pattern_matches s && decide (s.length ≤ 128)

/-- Modelled from the spec: `normalize_selected_skills` from
`src/services/skill_resolver.py` is not among the sources; spec §4.2:
"Deduplicates and validates input slugs, preserving first-seen order,
silently dropping invalid/unknown ones (never raises)". -/
def normalize_selected_skills (selected : List PyVal) : List (List Char) :=
  dedupFirst [] (selected.filterMap (fun v =>
    match v with
    | .str s => if is_valid_skill_slug s then some s else none
    | .nonStr => none))

/-- The parts of the runtime turn context that
`_get_visible_skills_from_runtime` inspects: whether
`context.skill_session_snapshot` is a dict, the snapshot's
`visible_skills` value when it is a list (`none` encodes a missing key or a
non-list value), and `getattr(context, "skills", None) or []`. -/
structure AgentRuntime where
  snapshotIsDict : Bool
  visible_skills : Option (List PyVal)
  contextSkills : List PyVal
deriving DecidableEq, Repr

/-- `composite._get_visible_skills_from_runtime`: use the snapshot's
`visible_skills` filtered to valid string slugs when the snapshot is a dict
carrying a list; otherwise fall back to normalising the context's selected
skills. -/
def _get_visible_skills_from_runtime (rt : AgentRuntime) : List (List Char) :=
  if rt.snapshotIsDict then
    match rt.visible_skills with
    | some visible =>
      visible.filterMap (fun v =>
        match v with
        | .str s => if is_valid_skill_slug s then some s else none
        | .nonStr => none)
    | none => normalize_selected_skills rt.contextSkills
  else normalize_selected_skills rt.contextSkills

/-- The observable shape of the `CompositeBackend` built by
`create_agent_composite_backend`: a default state backend plus the read-only
`/skills/` route scoped to a slug list. -/
structure CompositeBackendModel where
  skillsRouteScope : List (List Char)
  defaultIsStateBackend : Bool
deriving DecidableEq, Repr

/-- `composite.create_agent_composite_backend`. -/
def create_agent_composite_backend (rt : AgentRuntime) : CompositeBackendModel :=
  ⟨_get_visible_skills_from_runtime rt, true⟩

/-- C9: the `/skills/` route scope of the composite backend equals the turn
snapshot's `visible_skills` with every non-string or pattern-invalid slug
filtered out; and whenever the context carries no dict snapshot, or the
snapshot's `visible_skills` is not a list, the scope is the normalised
selected-skills list from the context. -/
theorem c9_composite_backend_scope (rt : AgentRuntime) :
    (∀ visible, rt.snapshotIsDict = true → rt.visible_skills = some visible →
      (create_agent_composite_backend rt).skillsRouteScope
        = visible.filterMap (fun v =>
            match v with
            | .str s => if is_valid_skill_slug s then some s else none
            | .nonStr => none))
    ∧ (rt.snapshotIsDict = false ∨ rt.visible_skills = none →
        (create_agent_composite_backend rt).skillsRouteScope
          = normalize_selected_skills rt.contextSkills) := by
  constructor
  · intro visible hdict hvis
    show _get_visible_skills_from_runtime rt = _
    rw [_get_visible_skills_from_runtime, if_pos hdict, hvis]
  · intro h
    show _get_visible_skills_from_runtime rt = _
    rcases h with h | h
    · rw [_get_visible_skills_from_runtime, if_neg (by rw [h]; exact fun hh => nomatch hh)]
    · simp [_get_visible_skills_from_runtime, h]

/-- C9 witness: a dict snapshot filters its list down to valid string slugs;
a runtime without a snapshot falls back to the normalised context list. -/
theorem c9_witness :
    (create_agent_composite_backend
        ⟨true, some [.str "alpha".data, .nonStr, .str "Bad_Slug".data], [.str "x".data]⟩
      ).skillsRouteScope = ["alpha".data]
    ∧ (create_agent_composite_backend
        ⟨false, none, [.str "beta".data, .str "beta".data, .nonStr]⟩
      ).skillsRouteScope = ["beta".data] :=
  ⟨((c9_composite_backend_scope
      ⟨true, some [.str "alpha".data, .nonStr, .str "Bad_Slug".data], [.str "x".data]⟩).1
      [.str "alpha".data, .nonStr, .str "Bad_Slug".data] rfl rfl).trans (by decide),
   ((c9_composite_backend_scope
      ⟨false, none, [.str "beta".data, .str "beta".data, .nonStr]⟩).2
      (Or.inl rfl)).trans (by decide)⟩

/-! ### Prompt-metadata lookup (`get_skill_prompt_metadata_by_slugs`) -/

/-- One value of the process-wide `_skill_prompt_metadata_cache`. -/
structure PromptMeta where
  name : List Char
  description : List Char
  path : List Char
deriving DecidableEq, Repr

/-- `_skill_prompt_metadata_cache.get(slug)`: the cache dict as an
association list with unique keys. -/
def cacheGet (cache : List (List Char × PromptMeta)) (slug : List Char) : Option PromptMeta :=
  (cache.find? (fun kv => kv.1 == slug)).map (·.2)

/-- The `for slug in slugs` loop of `get_skill_prompt_metadata_by_slugs`
with its `seen` set. -/
def get_skill_prompt_metadata_go (cache : List (List Char × PromptMeta))
    (seen : List (List Char)) : List (List Char) → List PromptMeta
  | [] => []
  | slug :: rest =>
    if seen.contains slug then get_skill_prompt_metadata_go cache seen rest
    else
      match cacheGet cache slug with
      | none => get_skill_prompt_metadata_go cache (slug :: seen) rest
      | some item => item :: get_skill_prompt_metadata_go cache (slug :: seen) rest

/-- `skill_service.get_skill_prompt_metadata_by_slugs`: pure cache lookup,
no IO; the `dict(item)` shallow copy is the identity in this value-level
embedding. -/
def get_skill_prompt_metadata_by_slugs (cache : List (List Char × PromptMeta))
    (slugs : List (List Char)) : List PromptMeta :=
  if slugs.isEmpty then [] else get_skill_prompt_metadata_go cache [] slugs

theorem get_skill_prompt_metadata_go_eq (cache : List (List Char × PromptMeta)) :
    ∀ (l : List (List Char)) (seen : List (List Char)),
      get_skill_prompt_metadata_go cache seen l
        = (dedupFirst seen l).filterMap (cacheGet cache) := by
  intro l
  induction l with
  | nil => intro seen; rfl
  | cons s rest ih =>
    intro seen
    rw [get_skill_prompt_metadata_go, dedupFirst]
    by_cases hseen : seen.contains s = true
    · rw [if_pos hseen, if_pos hseen, ih]
    · rw [if_neg hseen, if_neg hseen, List.filterMap_cons]
      cases hc : cacheGet cache s with
      | none => rw [ih]
      | some item => rw [ih]

/-- C10: `get_skill_prompt_metadata_by_slugs` returns exactly the cache
entries of the input slugs after first-seen-order deduplication — one entry
per distinct slug present in the cache, in first-seen input order, silently
skipping duplicates and cache misses — and the empty input yields the empty
list.  (The function is total, so it never raises.) -/
theorem c10_prompt_metadata_lookup (cache : List (List Char × PromptMeta))
    (slugs : List (List Char)) :
    get_skill_prompt_metadata_by_slugs cache slugs
      = (dedupFirst [] slugs).filterMap (cacheGet cache)
    ∧ get_skill_prompt_metadata_by_slugs cache [] = [] := by
  constructor
  · cases slugs with
    | nil => rfl
    | cons s rest =>
      rw [get_skill_prompt_metadata_by_slugs,
        if_neg (by exact fun h => nomatch h)]
      exact get_skill_prompt_metadata_go_eq cache (s :: rest) []
  · rfl

example :
    get_skill_prompt_metadata_by_slugs
      [("alpha".data, ⟨"alpha".data, "a".data, "/skills/alpha/SKILL.md".data⟩),
       ("beta".data, ⟨"beta".data, "b".data, "/skills/beta/SKILL.md".data⟩)]
      ["beta".data, "missing".data, "alpha".data, "beta".data]
    = [⟨"beta".data, "b".data, "/skills/beta/SKILL.md".data⟩,
       ⟨"alpha".data, "a".data, "/skills/alpha/SKILL.md".data⟩] := by decide
